import Mathlib

/-!
Verification of the timoavg audio-visualizer export pipeline.

The development shallowly embeds the export pipeline of the repository:
the frame-capture loop of the VideoExporter component
(src/unnamed/part_001 and the settings-aware variant in
src/src/components/VideoProcessor.tsx), its bar geometry, its color
resolver (getColorForScheme), its progress reports, and the control flow
of exportVideo around the external ffmpeg encoder.  Machine floats of the
source are modelled as rationals; JS Math.ceil, Math.round and
String.prototype.padStart are modelled explicitly.
-/

namespace Timoavg

/-- Color schemes of VisualizerSettings (src/src/app/page.tsx). -/
inductive ColorScheme
  | greenRed
  | bluePurple
  | rainbow
  | white
  | purpleGold
  | oceanBlue
  | sunset
  | neon
deriving DecidableEq, Repr

/-- Anchor position of the bars (VisualizerSettings.position). -/
inductive BarPosition
  | bottom
  | top
deriving DecidableEq, Repr

/-- Bar shape (VisualizerSettings.shape). -/
inductive BarShape
  | rectangle
  | rounded
  | pill
  | triangle
deriving DecidableEq, Repr

/-- VisualizerSettings record (src/src/app/page.tsx): barHeight is the
height-scale multiplier the spec calls barHeightScale. -/
structure VisualizerSettings where
  barSpacing : ℚ
  barHeight : ℚ
  colorScheme : ColorScheme
  position : BarPosition
  shape : BarShape
  glow : Bool
deriving DecidableEq, Repr

/-- Output resolution choices of ExportSettings
(src/src/components/VideoProcessor.tsx, setupCanvas). -/
inductive Resolution
  | r720p
  | r1080p
deriving DecidableEq, Repr

/-- Output container choices of ExportSettings. -/
inductive VideoFormat
  | mp4
  | webm
deriving DecidableEq, Repr

/-- Quality choices of ExportSettings. -/
inductive Quality
  | high
  | medium
  | low
deriving DecidableEq, Repr

/-- ExportSettings record of the settings-aware exporter
(src/src/components/VideoProcessor.tsx). -/
structure ExportSettings where
  resolution : Resolution
  fps : ℕ
  format : VideoFormat
  quality : Quality
deriving DecidableEq, Repr

/-- The fps constant of captureFrames: hard-coded 30 in both exporter
variants (src/unnamed/part_001 line 54, VideoProcessor.tsx line 369). -/
def captureFps : ℕ := 30

/-- totalFrames.current = Math.ceil(duration * fps)
(src/unnamed/part_001 line 56). -/
def totalFramesOf (duration : ℚ) (fps : ℕ) : ℤ :=
  Int.ceil (duration * (fps : ℚ))

/-- JS String.prototype.padStart(n, c): pad on the left with c up to
length n; a string already at least n long is returned unchanged. -/
def padStart (s : String) (n : ℕ) (c : Char) : String :=
  if s.length < n then String.mk (List.replicate (n - s.length) c) ++ s else s

/-- The key under which frame f is written to the ffmpeg file system:
"frame" + f zero-padded to 6 digits + ".jpg" (src/unnamed/part_001
line 164). -/
def frameFileName (f : ℕ) : String :=
  "frame" ++ padStart (toString f) 6 '0' ++ ".jpg"

/-- barWidth = (totalWidth - (totalBars - 1) * barSpacing) / totalBars
(src/unnamed/part_001 lines 65-68; totalWidth is the hard-coded 1280,
totalBars the 128 analyser bins). -/
def barWidth (totalWidth : ℚ) (totalBars : ℕ) (barSpacing : ℚ) : ℚ :=
  (totalWidth - ((totalBars : ℚ) - 1) * barSpacing) / (totalBars : ℚ)

/-- x-coordinate at which bar i is drawn: every shape branch of the
capture loop positions bar i at i * barWidth, with no spacing term
(src/unnamed/part_001 lines 120, 126, 137, 147). -/
def barX (i : ℕ) (w : ℚ) : ℚ := (i : ℚ) * w

/-- Right edge of the drawn row of bars: position of the last bar plus
its width. -/
def rowRightEdge (totalWidth : ℚ) (totalBars : ℕ) (s : ℚ) : ℚ :=
  barX (totalBars - 1) (barWidth totalWidth totalBars s) +
    barWidth totalWidth totalBars s

/-- Canvas width chosen by setupCanvas of the settings-aware exporter
(VideoProcessor.tsx lines 347-350). -/
def canvasWidth : Resolution → ℚ
  | .r1080p => 1920
  | .r720p => 1280

/-- Canvas height chosen by setupCanvas of the settings-aware exporter
(VideoProcessor.tsx lines 347-350). -/
def canvasHeight : Resolution → ℚ
  | .r1080p => 1080
  | .r720p => 720

/-- maxBarHeight as computed by captureFrames: the hard-coded
720 * 0.3, independent of the canvas dimensions
(src/unnamed/part_001 line 62; VideoProcessor.tsx line 377). -/
def maxBarHeight : ℚ := 720 * (3 / 10)

/-- barHeight = (dataArray[i] * settings.barHeight) * (maxBarHeight / 255)
(src/unnamed/part_001 line 113): dataVal is the 0-255 spectrum entry and
scale the barHeight multiplier of the settings. -/
def barHeightPx (dataVal : ℕ) (scale : ℚ) : ℚ :=
  (dataVal : ℚ) * scale * (maxBarHeight / 255)

/-- A CSS color value as produced by getColorForScheme: an rgb(...) or
rgba(...) or hsl(...) string, with its numeric components kept exact. -/
inductive CssColor
  | rgb (r g b : ℚ)
  | rgba (r g b a : ℚ)
  | hsl (h s l : ℚ)
deriving DecidableEq, Repr

/-- position = height / maxHeight as computed at the top of
getColorForScheme (src/unnamed/part_001 line 79): no clamping is
applied. -/
def colorPosition (height maxHeight : ℚ) : ℚ := height / maxHeight

/-- getColorForScheme (src/unnamed/part_001 lines 78-100), with the
rgb/hsl component expressions transcribed branch by branch. -/
def getColorForScheme (scheme : ColorScheme) (height maxHeight : ℚ) :
    CssColor :=
  let p := colorPosition height maxHeight
  match scheme with
  | .greenRed => .rgb (255 * p) (255 * (1 - p)) 0
  | .bluePurple => .rgb (255 * p) (100 + 155 * (1 - p)) 255
  | .rainbow => .hsl (240 * (1 - p)) 100 50
  | .purpleGold => .rgb (147 + 108 * p) (51 + 191 * p) (234 - 198 * p)
  | .oceanBlue => .rgb (14 + 59 * p) (165 + (-35) * p) (233 + 13 * p)
  | .sunset => .rgb (249 - 13 * p) (115 - 43 * p) (22 + 131 * p)
  | .neon => .rgb (34 + (-14) * p) (197 + (-13) * p) (94 + 72 * p)
  | .white => .rgba 255 255 255 (3 / 10 + 7 / 10 * p)

/-- Wall-clock time (seconds since source.start()) at which the capture
loop reads the analyser for frame i.  The read happens at the top of
iteration i (src/unnamed/part_001 line 105); the iteration then spends
renderDelay i seconds drawing and serializing the frame and waits a
further 1/fps seconds in the setTimeout of line 170 before the next
read. -/
def frameReadTime (fps : ℚ) (renderDelay : ℕ → ℚ) : ℕ → ℚ
  | 0 => 0
  | n + 1 => frameReadTime fps renderDelay n + renderDelay n + 1 / fps

/-- The spectrum captureFrames uses for frame i: the value
getByteFrequencyData returns from the live AnalyserNode attached to the
playing source at the wall-clock moment the loop reaches frame i.
liveRead models the analyser's rolling analysis as a function of
wall-clock playback time. -/
def capturedSpectrum (liveRead : ℚ → List ℕ) (fps : ℚ)
    (renderDelay : ℕ → ℚ) (i : ℕ) : List ℕ :=
  liveRead (frameReadTime fps renderDelay i)

/-- JS Math.round for the nonnegative values of this pipeline:
round half away from zero, i.e. floor(x + 1/2). -/
def jsRound (x : ℚ) : ℤ := Int.floor (x + 1 / 2)

/-- Progress reported after writing frame f of T:
Math.round((frame / totalFrames.current) * 70) + 20
(src/unnamed/part_001 line 167). -/
def frameProgress (f T : ℕ) : ℤ :=
  jsRound (((f : ℚ) / (T : ℚ)) * 70) + 20

/-- The fallible steps of exportVideo (src/unnamed/part_001
lines 193-243), in the order they run inside its try block: canvas and
image setup, audio decode, the frame-capture loop, the ffmpeg.exec
encode, and reading the encoder's output file. -/
inductive Step
  | setup
  | decode
  | capture
  | exec
  | readOutput
deriving DecidableEq, Repr

/-- Observable events of one export run: progress callbacks, writes to
the ffmpeg file system, the ffmpeg.exec invocation, the step being
entered, the completion callback (with the output URL) and the error
callback of the catch block. -/
inductive ExportEvent
  | progress (p : ℤ)
  | invoke (s : Step)
  | write (name : String)
  | execCall (args : List String)
  | complete
  | errorCb
deriving DecidableEq, Repr

/-- The argument list exportVideo passes to ffmpeg.exec
(src/unnamed/part_001 lines 216-225). -/
def encoderArgs : List String :=
  ["-framerate", "30",
   "-i", "frame%06d.jpg",
   "-i", "input.mp3",
   "-c:v", "libx264",
   "-c:a", "aac",
   "-pix_fmt", "yuv420p",
   "-shortest",
   "output.mp4"]

/-- Events of the capture loop when it completes: for each frame f in
order, the writeFile of the frame image followed by the progress
callback (src/unnamed/part_001 lines 162-167). -/
def captureTrace (T : ℕ) : List ExportEvent :=
  (List.range T).flatMap fun f =>
    [.write (frameFileName f), .progress (frameProgress f T)]

/-- exportVideo's observable trace (src/unnamed/part_001 lines 193-243),
as a function of which steps fail (throw) and the total frame count T.
All steps run in one try block; the first failure jumps to the catch
block, which calls the error callback, and nothing runs after it. -/
def exportRun (fails : Step → Bool) (T : ℕ) : List ExportEvent :=
  [.progress 0, .invoke .setup] ++
    (if fails .setup then [.errorCb] else
      [.progress 10, .invoke .decode] ++
        (if fails .decode then [.errorCb] else
          [.progress 20, .invoke .capture] ++
            (if fails .capture then [.errorCb] else
              captureTrace T ++ [.invoke .exec, .execCall encoderArgs] ++
                (if fails .exec then [.errorCb] else
                  [.progress 90, .invoke .readOutput] ++
                    (if fails .readOutput then [.errorCb] else
                      [.progress 100, .complete])))))

/-- The file names an event writes, if any. -/
def writeNameOf : ExportEvent → Option String
  | .write n => some n
  | _ => none

/-- The progress value an event reports, if any. -/
def progressValueOf : ExportEvent → Option ℤ
  | .progress p => some p
  | _ => none

/-- File names written to the ffmpeg file system during a run, in
order. -/
def writtenFiles (fails : Step → Bool) (T : ℕ) : List String :=
  (exportRun fails T).filterMap writeNameOf

/-- Progress values reported during a run, in order. -/
def reportedProgress (fails : Step → Bool) (T : ℕ) : List ℤ :=
  (exportRun fails T).filterMap progressValueOf

/-- Video codec chosen by the settings-aware exportVideo
(VideoProcessor.tsx line 541). -/
def codecOf : VideoFormat → String
  | .webm => "libvpx-vp9"
  | .mp4 => "libx264"

/-- Audio codec chosen by the settings-aware exportVideo
(VideoProcessor.tsx line 553). -/
def audioCodecOf : VideoFormat → String
  | .webm => "libvorbis"
  | .mp4 => "aac"

/-- Video bitrate chosen from the quality setting
(VideoProcessor.tsx lines 542-546). -/
def bitrateOf : Quality → String
  | .high => "8M"
  | .medium => "4M"
  | .low => "2M"

/-- Output file name of the settings-aware exportVideo
(VideoProcessor.tsx lines 540, 557). -/
def outputNameOf : VideoFormat → String
  | .webm => "output.webm"
  | .mp4 => "output.mp4"

/-- The argument list the settings-aware exportVideo passes to
ffmpeg.exec (VideoProcessor.tsx lines 548-558): the -framerate argument
is exportSettings.fps. -/
def encoderArgsSettings (es : ExportSettings) : List String :=
  ["-framerate", toString es.fps,
   "-i", "frame%06d.jpg",
   "-i", "input.mp3",
   "-c:v", codecOf es.format,
   "-c:a", audioCodecOf es.format,
   "-b:v", bitrateOf es.quality,
   "-pix_fmt", "yuv420p",
   "-shortest",
   outputNameOf es.format]

/-- The fps captureFrames of the settings-aware exporter counts and
paces frames with: the hard-coded constant 30 of VideoProcessor.tsx
line 369, for every ExportSettings value. -/
def captureFpsUsed (_es : ExportSettings) : ℕ := captureFps

/-- The framerate the encoder is told (VideoProcessor.tsx line 549). -/
def encoderFramerate (es : ExportSettings) : ℕ := es.fps

/-- Duration of the encoded video stream implied by its frame count and
the encoder framerate: ceil(duration * 30) frames played back at
exportSettings.fps frames per second. -/
def frameDerivedDuration (d : ℚ) (es : ExportSettings) : ℚ :=
  (totalFramesOf d (captureFpsUsed es) : ℚ) / (encoderFramerate es : ℚ)

/-- One realizable behavior of the live analyser: the rolling analysis
reads an all-zero magnitude bin during the first second of playback and
a full-scale bin afterwards (an audio track that is silent for its first
second). -/
def liveReadEx (t : ℚ) : List ℕ := if t < 1 then [0] else [255]

/-- The frame indices the capture loop iterates, in order:
frame = 0, 1, ..., totalFrames - 1 (src/unnamed/part_001 line 103). -/
def submittedFrameIndices (T : ℕ) : List ℕ := List.range T

/-- Padding a string to length n makes it at least n long. -/
theorem length_padStart (s : String) (n : ℕ) (c : Char) :
    n ≤ (padStart s n c).length := by
  unfold padStart
  split
  · rw [String.length_append]
    simp only [String.length_mk, List.length_replicate]
    omega
  · omega

/-- Every frame file name is at least 15 characters long
("frame" + 6 padded digits + ".jpg"). -/
theorem length_frameFileName (f : ℕ) : 15 ≤ (frameFileName f).length := by
  unfold frameFileName
  rw [String.length_append, String.length_append]
  have h := length_padStart (toString f) 6 '0'
  have h5 : ("frame" : String).length = 5 := rfl
  have h4 : (".jpg" : String).length = 4 := rfl
  omega

/-- No frame file name is the audio input name the encoder is given. -/
theorem frameFileName_ne_input (f : ℕ) : frameFileName f ≠ "input.mp3" := by
  intro h
  have hl := length_frameFileName f
  rw [h] at hl
  exact absurd hl (by decide)

/-- C1.  The claim says the spectrum used for frame i is a deterministic
function of (decodedSamples, i/fps, windowSize).  In the code the
spectrum is the live AnalyserNode read at the wall-clock moment the
loop reaches frame i, so it depends on how long rendering takes: with
identical samples, fps = 30 and frame index 1 (position 1/30 s), a run
whose frame renders take 0 s reads [0] while a run whose frame renders
take 1 s reads [255]. -/
theorem captured_spectrum_depends_on_wall_clock :
    frameReadTime 30 (fun _ => 0) 1 = 1 / 30 ∧
    frameReadTime 30 (fun _ => 1) 1 = 1 + 1 / 30 ∧
    capturedSpectrum liveReadEx 30 (fun _ => 0) 1 = [0] ∧
    capturedSpectrum liveReadEx 30 (fun _ => 1) 1 = [255] ∧
    capturedSpectrum liveReadEx 30 (fun _ => 0) 1 ≠
      capturedSpectrum liveReadEx 30 (fun _ => 1) 1 := by
  norm_num [capturedSpectrum, frameReadTime, liveReadEx]

/-- C3.  Frame count law: captureFrames computes
totalFrames = ceil(duration * fps), which is at least one frame and
covers the audio duration to within one frame period; at the hard-coded
fps 30, d = 10.0 gives 300 frames and d = 10.01 gives 301. -/
theorem frame_count_law (d : ℚ) (f : ℕ) (hd : 0 < d) (hf : 0 < f) :
    totalFramesOf d f = Int.ceil (d * (f : ℚ)) ∧
    1 ≤ totalFramesOf d f ∧
    d ≤ (totalFramesOf d f : ℚ) / (f : ℚ) ∧
    (totalFramesOf d f : ℚ) / (f : ℚ) < d + 1 / (f : ℚ) ∧
    totalFramesOf 10 captureFps = 300 ∧
    totalFramesOf (1001 / 100) captureFps = 301 := by
  have hfq : (0 : ℚ) < (f : ℚ) := by exact_mod_cast hf
  refine ⟨rfl, ?_, ?_, ?_, ?_, ?_⟩
  · have : (0 : ℚ) < d * (f : ℚ) := mul_pos hd hfq
    have := Int.ceil_pos.mpr this
    unfold totalFramesOf
    omega
  · rw [le_div_iff₀ hfq]
    exact Int.le_ceil _
  · rw [div_lt_iff₀ hfq, add_mul, div_mul_cancel₀ _ (ne_of_gt hfq)]
    exact Int.ceil_lt_add_one _
  · norm_num [totalFramesOf, captureFps]
  · norm_num [totalFramesOf, captureFps]
    rw [Int.ceil_eq_iff]
    norm_num

/-- Witness for C3 at d = 10.01, f = 30. -/
theorem frame_count_law_witness :
    totalFramesOf (1001 / 100) 30 = Int.ceil ((1001 / 100 : ℚ) * (30 : ℕ)) ∧
    1 ≤ totalFramesOf (1001 / 100) 30 ∧
    (1001 / 100 : ℚ) ≤ (totalFramesOf (1001 / 100) 30 : ℚ) / ((30 : ℕ) : ℚ) ∧
    (totalFramesOf (1001 / 100) 30 : ℚ) / ((30 : ℕ) : ℚ) <
      1001 / 100 + 1 / ((30 : ℕ) : ℚ) ∧
    totalFramesOf 10 captureFps = 300 ∧
    totalFramesOf (1001 / 100) captureFps = 301 :=
  frame_count_law (1001 / 100) 30 (by norm_num) (by norm_num)

/-- C5.  With N = 128 bins, spacing s = 2 and buffer width W = 1280 the
computed barWidth does satisfy N * barWidth + (N - 1) * s = W, but every
bar is drawn at x = i * barWidth with no spacing term, so the drawn row
ends at 1026, not at the buffer's right edge 1280 (it reaches the edge
only when s = 0). -/
theorem bars_do_not_span_full_width :
    barWidth 1280 128 2 = 513 / 64 ∧
    128 * barWidth 1280 128 2 + (128 - 1 : ℚ) * 2 = 1280 ∧
    rowRightEdge 1280 128 2 = 1026 ∧
    rowRightEdge 1280 128 2 ≠ 1280 ∧
    rowRightEdge 1280 128 0 = 1280 := by
  norm_num [barWidth, rowRightEdge, barX]

/-- C6.  maxBarHeight is the hard-coded 720 * 0.3 = 216: at the 1080p
resolution the canvas is 1080 pixels tall and 30% of it would be 324,
so the cap is not 30% of the buffer being rendered; it coincides with
30% of the buffer height only at 720p. -/
theorem max_bar_height_hard_coded :
    maxBarHeight = 216 ∧
    canvasHeight Resolution.r1080p = 1080 ∧
    (3 / 10) * canvasHeight Resolution.r1080p = 324 ∧
    maxBarHeight ≠ (3 / 10) * canvasHeight Resolution.r1080p ∧
    maxBarHeight = (3 / 10) * canvasHeight Resolution.r720p := by
  norm_num [maxBarHeight, canvasHeight]

/-- C7 counterexample.  With a full-scale spectrum entry (255) and
barHeightScale 2, the bar height is 432 = 2 * maxBarHeight, and
getColorForScheme computes position = 432 / 216 = 2 with no clamping:
the position exceeds 1 and the greenRed formula yields rgb(510, -255, 0)
rather than the clamped endpoint rgb(255, 0, 0). -/
theorem color_position_exceeds_one :
    barHeightPx 255 2 = 432 ∧
    colorPosition (barHeightPx 255 2) maxBarHeight = 2 ∧
    ¬ colorPosition (barHeightPx 255 2) maxBarHeight ≤ 1 ∧
    getColorForScheme ColorScheme.greenRed (barHeightPx 255 2) maxBarHeight =
      CssColor.rgb 510 (-255) 0 ∧
    getColorForScheme ColorScheme.greenRed (barHeightPx 255 2) maxBarHeight ≠
      CssColor.rgb 255 0 0 := by
  norm_num [barHeightPx, maxBarHeight, colorPosition, getColorForScheme]

/-- C7 amended.  The resolver computes its color from the unclamped
ratio p = h / m; for the greenRed scheme the result is
rgb(255 p, 255 (1 - p), 0), which is rgb(0, 255, 0) at h = 0 and
rgb(255, 0, 0) at h = m. -/
theorem green_red_color_law (h m : ℚ) (hm : m ≠ 0) :
    getColorForScheme ColorScheme.greenRed h m =
      CssColor.rgb (255 * (h / m)) (255 * (1 - h / m)) 0 ∧
    getColorForScheme ColorScheme.greenRed 0 m = CssColor.rgb 0 255 0 ∧
    getColorForScheme ColorScheme.greenRed m m = CssColor.rgb 255 0 0 := by
  refine ⟨rfl, ?_, ?_⟩
  · simp [getColorForScheme, colorPosition]
  · simp [getColorForScheme, colorPosition, div_self hm]

/-- Witness for the amended C7 at h = 216, m = 216. -/
theorem green_red_color_law_witness :
    getColorForScheme ColorScheme.greenRed 216 216 =
      CssColor.rgb (255 * ((216 : ℚ) / 216)) (255 * (1 - (216 : ℚ) / 216)) 0 ∧
    getColorForScheme ColorScheme.greenRed 0 216 = CssColor.rgb 0 255 0 ∧
    getColorForScheme ColorScheme.greenRed 216 216 = CssColor.rgb 255 0 0 :=
  green_red_color_law 216 216 (by norm_num)

/-- C10 counterexample.  The claim's divergence clause fails for short
tracks: with exportSettings.fps = 60 (different from 30) and audio
duration 1/60 s, capture produces ceil(30/60) = 1 frame and the
frame-derived duration 1/60 equals the audio duration exactly. -/
theorem frame_rate_divergence_cex :
    encoderFramerate ⟨Resolution.r720p, 60, VideoFormat.mp4, Quality.high⟩ ≠ 30 ∧
    (0 : ℚ) < 1 / 60 ∧
    frameDerivedDuration (1 / 60)
      ⟨Resolution.r720p, 60, VideoFormat.mp4, Quality.high⟩ = 1 / 60 := by
  refine ⟨by norm_num [encoderFramerate], by norm_num, ?_⟩
  unfold frameDerivedDuration totalFramesOf captureFpsUsed captureFps
    encoderFramerate
  norm_num
  rw [show Int.ceil ((1 : ℚ) / 2) = 1 from by
    rw [Int.ceil_eq_iff]; norm_num]
  norm_num

/-- C10 amended.  The settings-aware exporter counts and captures frames
at the hard-coded 30 fps for every ExportSettings value, while telling
the encoder exportSettings.fps; consequently for every fps below 30, and
for every fps above 30 once d * (fps - 30) >= 1, the frame-derived
stream duration ceil(30 d) / fps differs from the audio duration d. -/
theorem capture_fps_ignores_settings (es : ExportSettings) (d : ℚ)
    (hd : 0 < d) (hfps : 1 ≤ es.fps) :
    captureFpsUsed es = 30 ∧
    encoderFramerate es = es.fps ∧
    (encoderArgsSettings es)[1]? = some (toString es.fps) ∧
    (es.fps < 30 → frameDerivedDuration d es ≠ d) ∧
    (30 < es.fps → 1 ≤ d * ((es.fps : ℚ) - 30) →
      frameDerivedDuration d es ≠ d) := by
  have hf0 : (0 : ℚ) < (es.fps : ℚ) := by
    have : 0 < es.fps := hfps
    exact_mod_cast this
  refine ⟨rfl, rfl, rfl, ?_, ?_⟩
  · intro hlt
    have hltq : (es.fps : ℚ) < 30 := by exact_mod_cast hlt
    have h1 : d * (es.fps : ℚ) < d * 30 := by
      exact mul_lt_mul_of_pos_left hltq hd
    have h2 : d * 30 ≤ ((totalFramesOf d (captureFpsUsed es) : ℤ) : ℚ) := by
      unfold totalFramesOf captureFpsUsed captureFps
      push_cast
      exact le_trans (le_of_eq (by ring)) (Int.le_ceil _)
    have : d < frameDerivedDuration d es := by
      unfold frameDerivedDuration encoderFramerate
      rw [lt_div_iff₀ hf0]
      exact lt_of_lt_of_le h1 h2
    exact (ne_of_lt this).symm
  · intro hgt hcov
    have h1 : ((totalFramesOf d (captureFpsUsed es) : ℤ) : ℚ) <
        d * (es.fps : ℚ) := by
      unfold totalFramesOf captureFpsUsed captureFps
      have hceil : (Int.ceil (d * ((30 : ℕ) : ℚ)) : ℚ) < d * ((30 : ℕ) : ℚ) + 1 :=
        Int.ceil_lt_add_one _
      have : d * ((30 : ℕ) : ℚ) + 1 ≤ d * (es.fps : ℚ) := by
        have : d * (es.fps : ℚ) = d * 30 + d * ((es.fps : ℚ) - 30) := by ring
        rw [this]
        push_cast
        linarith
      exact lt_of_lt_of_le hceil this
    have : frameDerivedDuration d es < d := by
      unfold frameDerivedDuration encoderFramerate
      rw [div_lt_iff₀ hf0]
      exact h1
    exact ne_of_lt this

/-- Every write event of an export run is the write of some frame image
with index below the total frame count. -/
theorem write_name_is_frame (fails : Step → Bool) (T : ℕ) (n : String)
    (h : ExportEvent.write n ∈ exportRun fails T) :
    ∃ f, f < T ∧ n = frameFileName f := by
  unfold exportRun at h
  split_ifs at h <;>
    simp only [captureTrace, List.mem_append, List.mem_cons, List.mem_flatMap,
      List.mem_range, List.not_mem_nil, reduceCtorEq, ExportEvent.write.injEq,
      or_false, false_or] at h
  all_goals exact h

/-- C2.  The encoder is told to read the audio track from input.mp3, but
no export run ever writes input.mp3 (or any audio bytes) to the ffmpeg
file system: the only files written are the frame images.  The original
compressed audio is therefore never supplied to the encoder. -/
theorem encoder_audio_never_written :
    "input.mp3" ∈ encoderArgs ∧
    ∀ (fails : Step → Bool) (T : ℕ),
      ExportEvent.write "input.mp3" ∉ exportRun fails T := by
  refine ⟨by simp [encoderArgs], ?_⟩
  intro fails T h
  obtain ⟨f, _, hf⟩ := write_name_is_frame fails T _ h
  exact frameFileName_ne_input f hf.symm

/-- Writes of a frame/progress block list: the frame file names, in
order. -/
theorem filterMap_write_blocks (L : List ℕ) (g : ℕ → ℤ) :
    (L.flatMap fun f =>
        [ExportEvent.write (frameFileName f),
         ExportEvent.progress (g f)]).filterMap writeNameOf =
      L.map frameFileName := by
  induction L with
  | nil => rfl
  | cons a l ih =>
      rw [List.flatMap_cons, List.filterMap_append, ih, List.map_cons]
      rfl

/-- Progress reports of a frame/progress block list: the per-frame
values, in order. -/
theorem filterMap_progress_blocks (L : List ℕ) (g : ℕ → ℤ) :
    (L.flatMap fun f =>
        [ExportEvent.write (frameFileName f),
         ExportEvent.progress (g f)]).filterMap progressValueOf =
      L.map g := by
  induction L with
  | nil => rfl
  | cons a l ih =>
      rw [List.flatMap_cons, List.filterMap_append, ih, List.map_cons]
      rfl

/-- The file names written by a completed capture loop, in order: the
frame file names of indices 0, 1, ..., T - 1. -/
theorem filterMap_write_captureTrace (T : ℕ) :
    (captureTrace T).filterMap writeNameOf =
      (List.range T).map frameFileName :=
  filterMap_write_blocks (List.range T) fun f => frameProgress f T

/-- The progress values reported by a completed capture loop, in
order. -/
theorem filterMap_progress_captureTrace (T : ℕ) :
    (captureTrace T).filterMap progressValueOf =
      (List.range T).map fun f => frameProgress f T :=
  filterMap_progress_blocks (List.range T) fun f => frameProgress f T

/-- C4.  In a successful run the file keys submitted to the encoder are
exactly the frame file names of indices 0 through T - 1 in that order;
the index sequence of the capture loop is strictly increasing, covers
[0, T) with no gaps, and holds each index exactly once; and in the run's
event trace every frame write occurs before the single ffmpeg.exec
invocation, after which no further file is written. -/
theorem frame_submission_order (T : ℕ) (hT : 1 ≤ T) :
    writtenFiles (fun _ => false) T =
      (submittedFrameIndices T).map frameFileName ∧
    List.Chain' (· < ·) (submittedFrameIndices T) ∧
    (∀ i, i ∈ submittedFrameIndices T ↔ i < T) ∧
    (∀ i, i < T → (submittedFrameIndices T).count i = 1) ∧
    ∃ pre post,
      exportRun (fun _ => false) T =
        pre ++ ExportEvent.execCall encoderArgs :: post ∧
      (∀ f, f < T → ExportEvent.write (frameFileName f) ∈ pre) ∧
      ∀ e ∈ post, writeNameOf e = none := by
  refine ⟨?_, ?_, ?_, ?_, ?_⟩
  · unfold writtenFiles exportRun submittedFrameIndices
    simp only [Bool.false_eq_true, if_false, List.filterMap_append,
      filterMap_write_captureTrace]
    simp [writeNameOf]
  · obtain ⟨n, rfl⟩ := Nat.exists_eq_add_of_le hT
    unfold submittedFrameIndices
    rw [show 1 + n = n + 1 from Nat.add_comm 1 n]
    exact (List.chain'_range_succ (· < ·) n).mpr fun m _ => Nat.lt_succ_self m
  · intro i
    simp [submittedFrameIndices]
  · intro i hi
    have h1 : (List.range T).count i = 1 :=
      List.count_eq_one_of_mem (List.nodup_range T) (List.mem_range.mpr hi)
    exact h1
  · refine ⟨[.progress 0, .invoke .setup, .progress 10, .invoke .decode,
      .progress 20, .invoke .capture] ++ captureTrace T ++ [.invoke .exec],
      [.progress 90, .invoke .readOutput, .progress 100, .complete],
      ?_, ?_, ?_⟩
    · simp [exportRun, List.append_assoc]
    · intro f hf
      simp only [List.mem_append, List.mem_cons]
      refine Or.inl (Or.inr ?_)
      simp only [captureTrace, List.mem_flatMap, List.mem_range]
      exact ⟨f, hf, by simp⟩
    · intro e he
      simp only [List.mem_cons, List.not_mem_nil, or_false] at he
      rcases he with rfl | rfl | rfl | rfl <;> rfl

/-- Witness for C4 at T = 2. -/
theorem frame_submission_order_witness :
    writtenFiles (fun _ => false) 2 =
      (submittedFrameIndices 2).map frameFileName ∧
    List.Chain' (· < ·) (submittedFrameIndices 2) ∧
    (∀ i, i ∈ submittedFrameIndices 2 ↔ i < 2) ∧
    (∀ i, i < 2 → (submittedFrameIndices 2).count i = 1) ∧
    ∃ pre post,
      exportRun (fun _ => false) 2 =
        pre ++ ExportEvent.execCall encoderArgs :: post ∧
      (∀ f, f < 2 → ExportEvent.write (frameFileName f) ∈ pre) ∧
      ∀ e ∈ post, writeNameOf e = none :=
  frame_submission_order 2 (by norm_num)

/-- Every per-frame progress report is at least 20. -/
theorem frameProgress_lb (f T : ℕ) : 20 ≤ frameProgress f T := by
  unfold frameProgress jsRound
  have hx : (0 : ℚ) ≤ ((f : ℚ) / (T : ℚ)) * 70 := by positivity
  have h0 : (0 : ℤ) ≤ Int.floor (((f : ℚ) / (T : ℚ)) * 70 + 1 / 2) :=
    Int.floor_nonneg.mpr (by linarith)
  omega

/-- Every per-frame progress report of a frame inside the run is at most
90. -/
theorem frameProgress_ub (f T : ℕ) (h : f < T) : frameProgress f T ≤ 90 := by
  unfold frameProgress jsRound
  have hT : (0 : ℚ) < (T : ℚ) := by
    exact_mod_cast lt_of_le_of_lt (Nat.zero_le f) h
  have hfT : (f : ℚ) / (T : ℚ) < 1 := by
    rw [div_lt_one hT]
    exact_mod_cast h
  have hx : ((f : ℚ) / (T : ℚ)) * 70 < 70 := by nlinarith
  have h71 : Int.floor (((f : ℚ) / (T : ℚ)) * 70 + 1 / 2) < 71 :=
    Int.floor_lt.mpr (by push_cast; linarith)
  omega

/-- The first frame reports exactly 20. -/
theorem frameProgress_zero (T : ℕ) : frameProgress 0 T = 20 := by
  unfold frameProgress jsRound
  have h0 : ((0 : ℕ) : ℚ) / (T : ℚ) * 70 + 1 / 2 = 1 / 2 := by
    push_cast
    ring
  rw [h0, show ((1 : ℚ) / 2) = 1 / 2 from rfl]
  rw [show Int.floor ((1 : ℚ) / 2) = 0 from by
    rw [Int.floor_eq_zero_iff]
    constructor <;> norm_num]
  ring

/-- Per-frame progress is monotone in the frame index. -/
theorem frameProgress_mono (f g T : ℕ) (h : f ≤ g) :
    frameProgress f T ≤ frameProgress g T := by
  unfold frameProgress jsRound
  rcases Nat.eq_zero_or_pos T with hT | hT
  · subst hT
    norm_num
  · have hTq : (0 : ℚ) < (T : ℚ) := by exact_mod_cast hT
    have hdiv : (f : ℚ) / (T : ℚ) ≤ (g : ℚ) / (T : ℚ) :=
      (div_le_div_iff_of_pos_right hTq).mpr (by exact_mod_cast h)
    have hmul : ((f : ℚ) / (T : ℚ)) * 70 + 1 / 2 ≤
        ((g : ℚ) / (T : ℚ)) * 70 + 1 / 2 := by linarith
    have := Int.floor_le_floor hmul
    omega

/-- The per-frame progress reports are non-decreasing. -/
theorem chain_frameProgress (T : ℕ) :
    List.Chain' (· ≤ ·) ((List.range T).map fun f => frameProgress f T) := by
  rw [List.chain'_map]
  cases T with
  | zero => simp
  | succ n =>
      exact (List.chain'_range_succ _ n).mpr fun m _ =>
        frameProgress_mono m (m + 1) (n + 1) (Nat.le_succ m)

/-- Every per-frame progress report lies between 20 and 90. -/
theorem mem_frameProgress_bounds (T : ℕ) (p : ℤ)
    (hp : p ∈ (List.range T).map fun f => frameProgress f T) :
    20 ≤ p ∧ p ≤ 90 := by
  simp only [List.mem_map, List.mem_range] at hp
  obtain ⟨f, hf, rfl⟩ := hp
  exact ⟨frameProgress_lb f T, frameProgress_ub f T hf⟩

/-- The first entry of the per-frame report list is 20. -/
theorem head_frameProgress (n : ℕ) :
    (((List.range (n + 1)).map fun f => frameProgress f (n + 1))).head? =
      some 20 := by
  rw [List.range_succ_eq_map]
  simp [frameProgress_zero]

/-- The last entry of the per-frame report list is the report of the
last frame. -/
theorem getLast_frameProgress (n : ℕ) :
    (((List.range (n + 1)).map fun f => frameProgress f (n + 1))).getLast? =
      some (frameProgress n (n + 1)) := by
  rw [List.range_succ, List.map_append]
  exact List.getLast?_concat _

/-- The progress reports of any run take one of six shapes: a prefix of
the success sequence cut at the failing step. -/
theorem reportedProgress_eq (fails : Step → Bool) (T : ℕ) :
    reportedProgress fails T = [0] ∨
    reportedProgress fails T = [0, 10] ∨
    reportedProgress fails T = [0, 10, 20] ∨
    reportedProgress fails T =
      [0, 10, 20] ++ ((List.range T).map fun f => frameProgress f T) ∨
    reportedProgress fails T =
      [0, 10, 20] ++ ((List.range T).map fun f => frameProgress f T) ++
        [90] ∨
    reportedProgress fails T =
      [0, 10, 20] ++ ((List.range T).map fun f => frameProgress f T) ++
        [90, 100] := by
  unfold reportedProgress exportRun
  split_ifs <;>
    simp [List.filterMap_append, filterMap_progress_captureTrace,
      progressValueOf, List.append_assoc]

/-- Setup reports followed by the per-frame reports are
non-decreasing. -/
theorem chain_trace_mid (n : ℕ) :
    List.Chain' (· ≤ ·) (([0, 10, 20] : List ℤ) ++
      ((List.range (n + 1)).map fun f => frameProgress f (n + 1))) := by
  rw [List.chain'_append]
  refine ⟨by norm_num [List.chain'_cons], chain_frameProgress (n + 1), ?_⟩
  intro x hx y hy
  have hl : (([0, 10, 20] : List ℤ)).getLast? = some 20 := rfl
  rw [hl] at hx
  rw [head_frameProgress n] at hy
  simp only [Option.mem_def, Option.some.injEq] at hx hy
  omega

/-- Adding the encode report 90 keeps the sequence non-decreasing. -/
theorem chain_trace_90 (n : ℕ) :
    List.Chain' (· ≤ ·) (([0, 10, 20] : List ℤ) ++
      ((List.range (n + 1)).map fun f => frameProgress f (n + 1)) ++
        [90]) := by
  rw [List.chain'_append]
  refine ⟨chain_trace_mid n, by norm_num [List.chain'_cons], ?_⟩
  intro x hx y hy
  rw [List.getLast?_append_of_ne_nil _ (by simp)] at hx
  rw [getLast_frameProgress n] at hx
  rw [show (([90] : List ℤ)).head? = some 90 from rfl] at hy
  simp only [Option.mem_def, Option.some.injEq] at hx hy
  subst hx hy
  exact le_trans (frameProgress_ub n (n + 1) (Nat.lt_succ_self n))
    (by norm_num)

/-- The full success report sequence is non-decreasing. -/
theorem chain_trace_full (n : ℕ) :
    List.Chain' (· ≤ ·) (([0, 10, 20] : List ℤ) ++
      ((List.range (n + 1)).map fun f => frameProgress f (n + 1)) ++
        [90, 100]) := by
  rw [List.chain'_append]
  refine ⟨chain_trace_mid n, by norm_num [List.chain'_cons], ?_⟩
  intro x hx y hy
  rw [List.getLast?_append_of_ne_nil _ (by simp)] at hx
  rw [getLast_frameProgress n] at hx
  rw [show (([90, 100] : List ℤ)).head? = some 90 from rfl] at hy
  simp only [Option.mem_def, Option.some.injEq] at hx hy
  subst hx hy
  exact le_trans (frameProgress_ub n (n + 1) (Nat.lt_succ_self n))
    (by norm_num)

/-- Every entry of the full success report sequence is in [0, 100]. -/
theorem bounds_trace_full (n : ℕ) (p : ℤ)
    (hp : p ∈ ([0, 10, 20] : List ℤ) ++
      ((List.range (n + 1)).map fun f => frameProgress f (n + 1)) ++
        [90, 100]) :
    0 ≤ p ∧ p ≤ 100 := by
  rcases List.mem_append.mp hp with hp | hp
  · rcases List.mem_append.mp hp with hp | hp
    · fin_cases hp <;> norm_num
    · have := mem_frameProgress_bounds (n + 1) p hp
      omega
  · fin_cases hp <;> norm_num

/-- The progress value reported after frame f matches the spec's
formula 20 + round(70 * f / T). -/
theorem frameProgress_formula (f T : ℕ) :
    frameProgress f T = 20 + jsRound (70 * (f : ℚ) / (T : ℚ)) := by
  unfold frameProgress
  rw [show ((f : ℚ) / (T : ℚ)) * 70 = 70 * (f : ℚ) / (T : ℚ) from by ring]
  exact add_comm _ _

/-- C8.  Within one export run, whichever step fails (or none), the
reported progress values are non-decreasing and lie in [0, 100], and the
report after frame f is 20 + round(70 * f / T). -/
theorem progress_reports_monotone (fails : Step → Bool) (T : ℕ)
    (hT : 1 ≤ T) :
    List.Chain' (· ≤ ·) (reportedProgress fails T) ∧
    (∀ p ∈ reportedProgress fails T, 0 ≤ p ∧ p ≤ 100) ∧
    ∀ f, f < T →
      frameProgress f T = 20 + jsRound (70 * (f : ℚ) / (T : ℚ)) := by
  obtain ⟨n, rfl⟩ : ∃ n, T = n + 1 :=
    ⟨T - 1, (Nat.succ_pred_eq_of_pos hT).symm⟩
  refine ⟨?_, ?_, ?_⟩
  · rcases reportedProgress_eq fails (n + 1) with h | h | h | h | h | h <;>
      rw [h]
    · norm_num [List.chain'_cons]
    · norm_num [List.chain'_cons]
    · norm_num [List.chain'_cons]
    · exact chain_trace_mid n
    · exact chain_trace_90 n
    · exact chain_trace_full n
  · intro p hp
    rcases reportedProgress_eq fails (n + 1) with h | h | h | h | h | h <;>
      rw [h] at hp
    · fin_cases hp; norm_num
    · fin_cases hp <;> norm_num
    · fin_cases hp <;> norm_num
    · exact bounds_trace_full n p (List.mem_append_left _ hp)
    · rcases List.mem_append.mp hp with hp | hp
      · exact bounds_trace_full n p (List.mem_append_left _ hp)
      · fin_cases hp; norm_num
    · exact bounds_trace_full n p hp
  · intro f _
    exact frameProgress_formula f (n + 1)

/-- Witness for C8 at a run with no failures and T = 2. -/
theorem progress_reports_monotone_witness :
    List.Chain' (· ≤ ·) (reportedProgress (fun _ => false) 2) ∧
    (∀ p ∈ reportedProgress (fun _ => false) 2, 0 ≤ p ∧ p ≤ 100) ∧
    ∀ f, f < 2 →
      frameProgress f 2 = 20 + jsRound (70 * (f : ℚ) / ((2 : ℕ) : ℚ)) :=
  progress_reports_monotone (fun _ => false) 2 (by norm_num)

/-- The capture loop emits no step-invocation events. -/
theorem invoke_not_mem_captureTrace (s : Step) (T : ℕ) :
    ExportEvent.invoke s ∉ captureTrace T := by
  simp [captureTrace, List.mem_flatMap]

/-- The capture loop emits no completion event. -/
theorem complete_not_mem_captureTrace (T : ℕ) :
    ExportEvent.complete ∉ captureTrace T := by
  simp [captureTrace, List.mem_flatMap]

/-- The capture loop emits no error-callback event. -/
theorem errorCb_not_mem_captureTrace (T : ℕ) :
    ExportEvent.errorCb ∉ captureTrace T := by
  simp [captureTrace, List.mem_flatMap]

/-- Step invocations are never counted inside the capture loop. -/
theorem count_invoke_captureTrace (s : Step) (T : ℕ) :
    (captureTrace T).count (ExportEvent.invoke s) = 0 :=
  List.count_eq_zero.mpr (invoke_not_mem_captureTrace s T)

/-- Error callbacks are never counted inside the capture loop. -/
theorem count_errorCb_captureTrace (T : ℕ) :
    (captureTrace T).count ExportEvent.errorCb = 0 :=
  List.count_eq_zero.mpr (errorCb_not_mem_captureTrace T)

/-- C9.  If any step of exportVideo fails, the error callback is the
last event of the run (nothing runs after the catch block), the
completion callback never fires; every step is invoked at most once
(no retry) and the error callback fires at most once; the completion
callback fires only when every step succeeded, and in that case the run
ends with it and no error callback ever fires. -/
theorem export_failure_policy (fails : Step → Bool) (T : ℕ) :
    ((∃ s, fails s = true) →
      ExportEvent.errorCb ∈ exportRun fails T ∧
      ExportEvent.complete ∉ exportRun fails T ∧
      ∃ pre, exportRun fails T = pre ++ [ExportEvent.errorCb]) ∧
    (∀ s : Step, (exportRun fails T).count (ExportEvent.invoke s) ≤ 1) ∧
    (exportRun fails T).count ExportEvent.errorCb ≤ 1 ∧
    (ExportEvent.complete ∈ exportRun fails T → ∀ s, fails s = false) ∧
    ((∀ s, fails s = false) →
      ExportEvent.errorCb ∉ exportRun fails T ∧
      ∃ pre, exportRun fails T = pre ++ [ExportEvent.complete]) := by
  cases h1 : fails Step.setup with
  | true =>
      have he : exportRun fails T =
          [.progress 0, .invoke .setup, .errorCb] := by
        simp [exportRun, h1]
      rw [he]
      refine ⟨fun _ => ⟨by simp, by simp,
          ⟨[.progress 0, .invoke .setup], rfl⟩⟩,
        fun s => by cases s <;> decide,
        by decide, by simp,
        fun hall => absurd h1 (by simp [hall])⟩
  | false =>
  cases h2 : fails Step.decode with
  | true =>
      have he : exportRun fails T =
          [.progress 0, .invoke .setup, .progress 10, .invoke .decode,
           .errorCb] := by
        simp [exportRun, h1, h2]
      rw [he]
      refine ⟨fun _ => ⟨by simp, by simp,
          ⟨[.progress 0, .invoke .setup, .progress 10, .invoke .decode],
            rfl⟩⟩,
        fun s => by cases s <;> decide,
        by decide, by simp,
        fun hall => absurd h2 (by simp [hall])⟩
  | false =>
  cases h3 : fails Step.capture with
  | true =>
      have he : exportRun fails T =
          [.progress 0, .invoke .setup, .progress 10, .invoke .decode,
           .progress 20, .invoke .capture, .errorCb] := by
        simp [exportRun, h1, h2, h3]
      rw [he]
      refine ⟨fun _ => ⟨by simp, by simp,
          ⟨[.progress 0, .invoke .setup, .progress 10, .invoke .decode,
            .progress 20, .invoke .capture], rfl⟩⟩,
        fun s => by cases s <;> decide,
        by decide, by simp,
        fun hall => absurd h3 (by simp [hall])⟩
  | false =>
  cases h4 : fails Step.exec with
  | true =>
      have he : exportRun fails T =
          [.progress 0, .invoke .setup, .progress 10, .invoke .decode,
           .progress 20, .invoke .capture] ++ captureTrace T ++
          [.invoke .exec, .execCall encoderArgs, .errorCb] := by
        simp [exportRun, h1, h2, h3, h4, List.append_assoc]
      rw [he]
      refine ⟨fun _ => ⟨by simp, ?_, ?_⟩, ?_, ?_, ?_,
        fun hall => absurd h4 (by simp [hall])⟩
      · simp [List.mem_append, complete_not_mem_captureTrace]
      · exact ⟨[.progress 0, .invoke .setup, .progress 10, .invoke .decode,
          .progress 20, .invoke .capture] ++ captureTrace T ++
          [.invoke .exec, .execCall encoderArgs],
          by simp [List.append_assoc]⟩
      · intro s
        simp only [List.count_append, count_invoke_captureTrace s T]
        cases s <;> decide
      · simp only [List.count_append, count_errorCb_captureTrace T]
        decide
      · simp [List.mem_append, complete_not_mem_captureTrace]
  | false =>
  cases h5 : fails Step.readOutput with
  | true =>
      have he : exportRun fails T =
          [.progress 0, .invoke .setup, .progress 10, .invoke .decode,
           .progress 20, .invoke .capture] ++ captureTrace T ++
          [.invoke .exec, .execCall encoderArgs, .progress 90,
           .invoke .readOutput, .errorCb] := by
        simp [exportRun, h1, h2, h3, h4, h5, List.append_assoc]
      rw [he]
      refine ⟨fun _ => ⟨by simp, ?_, ?_⟩, ?_, ?_, ?_,
        fun hall => absurd h5 (by simp [hall])⟩
      · simp [List.mem_append, complete_not_mem_captureTrace]
      · exact ⟨[.progress 0, .invoke .setup, .progress 10, .invoke .decode,
          .progress 20, .invoke .capture] ++ captureTrace T ++
          [.invoke .exec, .execCall encoderArgs, .progress 90,
           .invoke .readOutput],
          by simp [List.append_assoc]⟩
      · intro s
        simp only [List.count_append, count_invoke_captureTrace s T]
        cases s <;> decide
      · simp only [List.count_append, count_errorCb_captureTrace T]
        decide
      · simp [List.mem_append, complete_not_mem_captureTrace]
  | false =>
      have he : exportRun fails T =
          [.progress 0, .invoke .setup, .progress 10, .invoke .decode,
           .progress 20, .invoke .capture] ++ captureTrace T ++
          [.invoke .exec, .execCall encoderArgs, .progress 90,
           .invoke .readOutput, .progress 100, .complete] := by
        simp [exportRun, h1, h2, h3, h4, h5, List.append_assoc]
      rw [he]
      refine ⟨?_, ?_, ?_, ?_, ?_⟩
      · rintro ⟨s, hs⟩
        cases s
        · rw [h1] at hs; cases hs
        · rw [h2] at hs; cases hs
        · rw [h3] at hs; cases hs
        · rw [h4] at hs; cases hs
        · rw [h5] at hs; cases hs
      · intro s
        simp only [List.count_append, count_invoke_captureTrace s T]
        cases s <;> decide
      · simp only [List.count_append, count_errorCb_captureTrace T]
        decide
      · intro _ s
        cases s <;> assumption
      · intro _
        refine ⟨?_, ?_⟩
        · simp [List.mem_append, errorCb_not_mem_captureTrace]
        · exact ⟨[.progress 0, .invoke .setup, .progress 10, .invoke .decode,
            .progress 20, .invoke .capture] ++ captureTrace T ++
            [.invoke .exec, .execCall encoderArgs, .progress 90,
             .invoke .readOutput, .progress 100],
            by simp [List.append_assoc]⟩

/-- Witness for the amended C10 at fps = 24, d = 1. -/
theorem capture_fps_ignores_settings_witness :
    captureFpsUsed ⟨Resolution.r720p, 24, VideoFormat.mp4, Quality.high⟩ = 30 ∧
    encoderFramerate ⟨Resolution.r720p, 24, VideoFormat.mp4, Quality.high⟩ = 24 ∧
    (encoderArgsSettings
        ⟨Resolution.r720p, 24, VideoFormat.mp4, Quality.high⟩)[1]? =
      some (toString (24 : ℕ)) ∧
    ((24 : ℕ) < 30 → frameDerivedDuration 1
        ⟨Resolution.r720p, 24, VideoFormat.mp4, Quality.high⟩ ≠ 1) ∧
    (30 < (24 : ℕ) → 1 ≤ (1 : ℚ) * (((24 : ℕ) : ℚ) - 30) →
      frameDerivedDuration 1
        ⟨Resolution.r720p, 24, VideoFormat.mp4, Quality.high⟩ ≠ 1) :=
  capture_fps_ignores_settings
    ⟨Resolution.r720p, 24, VideoFormat.mp4, Quality.high⟩ 1
    (by norm_num) (by norm_num)

end Timoavg
